import Mathlib

/-!
Shallow embedding of the devfile registry index generator
(`index/generator/library`: `index.go` and `util.go`) together with proofs
about its index-building, validation and interrupt-cleanup behaviour.

Filesystem reads, the YAML parser and the external devfile
parser/validator are oracles: directory listings, file-existence flags and
parse results are inputs to the embedded functions, mirroring how the Go
code consumes them.
-/

namespace RegistryLibrary

/-- Devfile type discriminator (`schema.DevfileType`): stack or sample. -/
inductive DevfileType
  | stack
  | sample
deriving Repr, DecidableEq

/-- Git source reference. Modelled from the spec: the `schema.Git` type is
outside `src/`; §3 GitRef gives `url`, `remoteName`, `revision`,
`subDir`, and `validateIndexComponent` additionally reads a `Remotes`
map. -/
structure Git where
  url : String := ""
  remoteName : String := ""
  revision : String := ""
  subDir : String := ""
  remotes : List (String × String) := []
deriving Repr, DecidableEq

/-- One version of a stack. Modelled from the spec: the `schema.Version`
type is outside `src/`; §3 VersionEntry gives its fields. Go `nil` maps
are `none`; the version identifier `default` flag and the per-version
links/resources/starterProjects are as in §3. -/
structure Version where
  version : String := ""
  schemaVersion : String := ""
  default : Bool := false
  description : String := ""
  icon : String := ""
  tags : List String := []
  architectures : List String := []
  links : Option (List (String × String)) := none
  resources : List String := []
  starterProjects : List String := []
  git : Option Git := none
deriving Repr, DecidableEq

/-- A catalog entry. Modelled from the spec: the `schema.Schema` type is
outside `src/`; §3 CatalogEntry gives its fields. `links` and
`resources` are `Option` because the Go code distinguishes `nil` from
populated values (`validateIndexComponent` checks `== nil`). -/
structure Schema where
  name : String := ""
  displayName : String := ""
  description : String := ""
  icon : String := ""
  projectType : String := ""
  language : String := ""
  provider : String := ""
  supportUrl : String := ""
  tags : List String := []
  architectures : List String := []
  type : Option DevfileType := none
  links : Option (List (String × String)) := none
  resources : Option (List String) := none
  starterProjects : List String := []
  git : Option Git := none
  versions : List Version := []
deriving Repr, DecidableEq

/-- Devfile metadata block. Modelled from the spec: §6 lists the metadata
fields exposed by a parsed devfile (`name, displayName, language,
projectType, icon, description, provider, supportUrl`), and §4.2 step 3
re-interprets the metadata into version-level `tags`, `architectures`
and a `version` identifier. -/
structure Meta where
  name : String := ""
  displayName : String := ""
  description : String := ""
  icon : String := ""
  projectType : String := ""
  language : String := ""
  provider : String := ""
  supportUrl : String := ""
  version : String := ""
  tags : List String := []
  architectures : List String := []
deriving Repr, DecidableEq

/-- Parsed content of one `devfile.yaml` file, together with the verdict
of the external `ParseDevfileAndValidate` oracle on that file
(`valid`). Modelled from the spec: `schema.Devfile` is outside `src/`;
it carries `metadata`, `schemaVersion` and `starterProjects`. -/
structure DevfileFile where
  meta : Meta := {}
  schemaVersion : String := ""
  starterProjects : List String := []
  valid : Bool := true
deriving Repr, DecidableEq

/-- Filesystem oracle for one version directory: which of the two
recognized metadata filenames exist, the parsed contents behind each,
the `ReadDir` listing (`(name, isDir)` pairs), and whether the
directory itself exists (for `dirExists`). -/
structure VersionDir where
  hasDevfile : Bool := false
  hasHiddenDevfile : Bool := false
  plainContent : DevfileFile := {}
  hiddenContent : DevfileFile := {}
  files : List (String × Bool) := []
  isDir : Bool := false
deriving Repr, DecidableEq

/-- Build-fatal errors produced by the index generator, one constructor
per `fmt.Errorf` site the embedding reaches. -/
inductive BuildErr
  | bothDevfilesExist (devfilePath devfileHiddenPath : String)
  | devfileNotValid (dir : String)
  | devfileMetadataMissing (dir : String) (errs : List String)
  | readFileFailed (p : String)
  | stackYamlInvalid (stack : String) (errs : List String)
  | sampleDevfileMissing (name : String)
  | sampleDevfileInvalid (name : String)
  | componentNotValid (name : String)
deriving Repr, DecidableEq

/-- The two recognized metadata filenames (constants `devfile` and
`devfileHidden` in `index.go`). -/
def devfile : String := "devfile.yaml"

/-- Hidden alternate metadata filename. -/
def devfileHidden : String := ".devfile.yaml"

/-- Path join, modelling `filepath.Join` for the non-empty components the
generator joins. -/
def joinPath (a b : String) : String := a ++ "/" ++ b

/-- Direct translation of `inArray` (`util.go`): membership scan over a
string slice. -/
def inArray : List String → String → Bool
  | [], _ => false
  | item :: rest, value => if item = value then true else inArray rest value

/-- Validation errors of `validateIndexComponent`, one constructor per
return site; the three `Missing*Error` types are the dedicated error
structs of `index.go`. -/
inductive ValErr
  | nameNotInitialized
  | linksEmpty
  | resourcesEmpty
  | gitEmpty
  | multipleRemotes
  | missingProvider (d : String)
  | missingSupportUrl (d : String)
  | missingArch (d : String)
deriving Repr, DecidableEq

/-- Soft (warn-only) validation errors: exactly the three `Missing*Error`
types matched by the `switch err.(type)` in `parseExtraDevfileEntries`. -/
def isSoftValErr : ValErr → Bool
  | .missingProvider _ => true
  | .missingSupportUrl _ => true
  | .missingArch _ => true
  | _ => false

/-- Translation of `validateIndexComponent` (`index.go`): kind-specific
hard checks followed by the common provider/supportUrl/architectures
checks, returning the first failure. -/
def validateIndexComponent (indexComponent : Schema) (componentType : DevfileType) : Option ValErr :=
  let kindErr : Option ValErr :=
    if componentType = .stack then
      if indexComponent.name = "" then some .nameNotInitialized
      else if indexComponent.links = none then some .linksEmpty
      else if indexComponent.resources = none then some .resourcesEmpty
      else none
    else if componentType = .sample then
      if indexComponent.git = none then some .gitEmpty
      else if ((indexComponent.git.getD {}).remotes).length > 1 then some .multipleRemotes
      else none
    else none
  match kindErr with
  | some e => some e
  | none =>
    if indexComponent.provider = "" then some (.missingProvider indexComponent.name)
    else if indexComponent.supportUrl = "" then some (.missingSupportUrl indexComponent.name)
    else if indexComponent.architectures.length = 0 then some (.missingArch indexComponent.name)
    else none

/-- Translation of `checkForRequiredMetadata` (`index.go`): collects the
missing-field messages for `name`, `displayName`, `language`,
`projectType` in source order. -/
def checkForRequiredMetadata (m : Meta) : List String :=
  (if m.name = "" then ["metadata.name is not set"] else []) ++
  (if m.displayName = "" then ["metadata.displayName is not set"] else []) ++
  (if m.language = "" then ["metadata.language is not set"] else []) ++
  (if m.projectType = "" then ["metadata.projectType is not set"] else [])

/-- YAML round-trip of `devfile.Meta` through `schema.Version`
(`parseStackDevfile` marshals the metadata and unmarshals it as a
`Version`): the fields whose YAML keys exist on both sides carry over,
everything else is the zero value. -/
def metaToVersionProp (m : Meta) : Version :=
  { version := m.version
    description := m.description
    icon := m.icon
    tags := m.tags
    architectures := m.architectures }

/-- The metadata file `parseStackDevfile` reads: the hidden name wins
whenever it exists (`if fileExists(devfileHiddenPath) { devfilePath =
devfileHiddenPath }`). -/
def chosenDevfileContent (dir : VersionDir) : DevfileFile :=
  if dir.hasHiddenDevfile then dir.hiddenContent else dir.plainContent

/-- Map update used for `versionComponent.Links["self"] = ...`: replace
the binding if the key is present, otherwise append it. -/
def setLink (m : List (String × String)) (k v : String) : List (String × String) :=
  if m.any (fun p => p.1 = k) then
    m.map (fun p => if p.1 = k then (k, v) else p)
  else m ++ [(k, v)]

/-- Lookup in the association-list model of a Go `map[string]string`. -/
def lookupLink (m : Option (List (String × String))) (k : String) : Option String :=
  ((m.getD []).find? (fun p => p.1 = k)).map (fun p => p.2)

/-- The eight `set common properties if not set` assignments of
`parseStackDevfile`: each entry-level scalar is taken from the
version's metadata only when currently empty. -/
def backfill (indexComponent : Schema) (m : Meta) : Schema :=
  { indexComponent with
    projectType := if indexComponent.projectType = "" then m.projectType else indexComponent.projectType
    language := if indexComponent.language = "" then m.language else indexComponent.language
    provider := if indexComponent.provider = "" then m.provider else indexComponent.provider
    supportUrl := if indexComponent.supportUrl = "" then m.supportUrl else indexComponent.supportUrl
    name := if indexComponent.name = "" then m.name else indexComponent.name
    displayName := if indexComponent.displayName = "" then m.displayName else indexComponent.displayName
    description := if indexComponent.description = "" then m.description else indexComponent.description
    icon := if indexComponent.icon = "" then m.icon else indexComponent.icon }

/-- The tag/architecture union loops of `parseStackDevfile`: append each
new element not already present (`inArray`), preserving first-appearance
order. -/
def unionInto (base : List String) (new : List String) : List String :=
  new.foldl (fun acc t => if inArray acc t then acc else acc ++ [t]) base

/-- Value of the `versionComponent` out-parameter on the success path of
`parseStackDevfile`: the metadata round-trip overwrites the whole
struct except `Default`, then the self link, `schemaVersion`, starter
projects and the directory's non-directory files are recorded. -/
def mergedVersionComponent (versionComponent : Version) (c : DevfileFile)
    (stackName : String) (files : List (String × Bool)) : Version :=
  let versionProp := metaToVersionProp c.meta
  let vp := { versionProp with default := versionComponent.default }
  let links := setLink (vp.links.getD []) "self"
    ("devfile-catalog" ++ "/" ++ stackName ++ ":" ++ vp.version)
  { vp with
    links := some links
    schemaVersion := c.schemaVersion
    starterProjects := vp.starterProjects ++ c.starterProjects
    resources := vp.resources ++ (files.filter (fun p => p.2 = false)).map Prod.fst }

/-- Value of the `indexComponent` out-parameter on the success path of
`parseStackDevfile`: scalar backfill followed by the tag and
architecture unions. -/
def mergedIndexComponent (indexComponent : Schema) (c : DevfileFile) : Schema :=
  let idx := backfill indexComponent c.meta
  { idx with
    tags := unionInto idx.tags c.meta.tags
    architectures := unionInto idx.architectures c.meta.architectures }

/-- Translation of `parseStackDevfile` (`index.go`): ambiguity check on
the two recognized filenames, external validation and required-metadata
checks unless `force`, file read, then the merge into the version and
index components. -/
def parseStackDevfile (devfileDirPath : String) (dir : VersionDir) (stackName : String)
    (force : Bool) (versionComponent : Version) (indexComponent : Schema) :
    Except BuildErr (Version × Schema) :=
  if dir.hasDevfile && dir.hasHiddenDevfile then
    .error (.bothDevfilesExist (joinPath devfileDirPath devfile) (joinPath devfileDirPath devfileHidden))
  else
    let content := chosenDevfileContent dir
    if !force && !content.valid then
      .error (.devfileNotValid devfileDirPath)
    else if !force && !(checkForRequiredMetadata content.meta).isEmpty then
      .error (.devfileMetadataMissing devfileDirPath (checkForRequiredMetadata content.meta))
    else if !dir.hasDevfile && !dir.hasHiddenDevfile then
      .error (.readFileFailed devfileDirPath)
    else
      .ok (mergedVersionComponent versionComponent content stackName dir.files,
           mergedIndexComponent indexComponent content)

/-- Per-version part of `validateStackInfo` (`index.go`): walks the
versions tracking `hasDefault`, reporting a second `default` and any
locally-sourced version whose directory does not exist; returns the
collected errors and the final `hasDefault` flag. `dirOk v` is the
`dirExists` oracle for the version subdirectory named `v`. -/
def stackVersionErrors (dirOk : String → Bool) : List Version → Bool → (List String × Bool)
  | [], hasDefault => ([], hasDefault)
  | v :: rest, hasDefault =>
    let step : List String × Bool :=
      if v.default then
        if !hasDefault then ([], true)
        else (["stack.yaml has multiple default versions"], hasDefault)
      else ([], hasDefault)
    let dirErrs : List String :=
      if v.git = none && !(dirOk v.version) then
        ["cannot find resorce folder for version " ++ v.version ++ " defined in stack.yaml"]
      else []
    let restResult := stackVersionErrors dirOk rest step.2
    (step.1 ++ dirErrs ++ restResult.1, restResult.2)

/-- Translation of `validateStackInfo` (`index.go`): structural checks on
a parsed `stack.yaml` — non-empty name/displayName/icon, a non-empty
versions list, at most one then at least one default version, and an
existing directory for every local version. -/
def validateStackInfo (stackInfo : Schema) (dirOk : String → Bool) : List String :=
  let errs0 :=
    (if stackInfo.name = "" then ["name is not set in stack.yaml"] else []) ++
    (if stackInfo.displayName = "" then ["displayName is not set stack.yaml"] else []) ++
    (if stackInfo.icon = "" then ["icon is not set stack.yaml"] else []) ++
    (if stackInfo.versions.isEmpty then ["versions list is not set stack.yaml, or is empty"] else [])
  let loop := stackVersionErrors dirOk stackInfo.versions false
  errs0 ++ loop.1 ++ (if loop.2 then [] else ["stack.yaml does not contain a default version"])

/-- Filesystem oracle for one immediate entry of the `stacks/` directory:
its name, whether it is a directory, the parsed `stack.yaml` when that
file exists, the folder itself viewed as a version directory (legacy
layout), and the version subdirectories keyed by name. -/
structure StackFolder where
  name : String := ""
  isDir : Bool := true
  stackYaml : Option Schema := none
  legacyDir : VersionDir := {}
  versionDirs : List (String × VersionDir) := []

/-- Version-directory lookup inside a stack folder; a name that is absent
behaves as a directory none of whose metadata files exist. -/
def lookupVD (l : List (String × VersionDir)) (k : String) : VersionDir :=
  match l.find? (fun p => p.1 = k) with
  | some p => p.2
  | none => {}

/-- The `dirExists` oracle induced by a stack folder's version table. -/
def folderDirOk (f : StackFolder) : String → Bool :=
  fun v => (lookupVD f.versionDirs v).isDir

/-- The version loop of `parseDevfileRegistry`: versions with a remote
source are left untouched, the rest are delegated to
`parseStackDevfile`, threading the index component through and writing
each updated version back into the list. -/
def processStackVersions (f : StackFolder) (stackFolderPath : String) (force : Bool) :
    Schema → List Version → Except BuildErr (Schema × List Version)
  | indexComponent, [] => .ok (indexComponent, [])
  | indexComponent, v :: rest =>
    match v.git with
    | some _ =>
      match processStackVersions f stackFolderPath force indexComponent rest with
      | .error e => .error e
      | .ok (idx, vs) => .ok (idx, v :: vs)
    | none =>
      match parseStackDevfile (joinPath stackFolderPath v.version)
          (lookupVD f.versionDirs v.version) f.name force v indexComponent with
      | .error e => .error e
      | .ok (v1, idx1) =>
        match processStackVersions f stackFolderPath force idx1 rest with
        | .error e => .error e
        | .ok (idx, vs) => .ok (idx, v1 :: vs)

/-- Translation of `parseDevfileRegistry` (`index.go`) over the listing
of the `stacks/` directory: non-directories are skipped; a folder with
a `stack.yaml` is structurally validated (unless `force`) and its local
versions merged; a folder without one is treated as a single implicit
default version; every produced entry is marked as a stack. -/
def parseDevfileRegistry (registryDirPath : String) (force : Bool) :
    List StackFolder → Except BuildErr (List Schema)
  | [] => .ok []
  | f :: rest =>
    let stackDirPath := joinPath registryDirPath "stacks"
    if !f.isDir then parseDevfileRegistry registryDirPath force rest
    else
      let stackFolderPath := joinPath stackDirPath f.name
      let build : Except BuildErr Schema :=
        match f.stackYaml with
        | some stackInfo =>
          if !force && !(validateStackInfo stackInfo (folderDirOk f)).isEmpty then
            .error (.stackYamlInvalid f.name (validateStackInfo stackInfo (folderDirOk f)))
          else
            match processStackVersions f stackFolderPath force stackInfo stackInfo.versions with
            | .error e => .error e
            | .ok (idx, vs) => .ok { idx with versions := vs }
        | none =>
          match parseStackDevfile stackFolderPath f.legacyDir f.name force {} {} with
          | .error e => .error e
          | .ok (v, idx) => .ok { idx with versions := idx.versions ++ [{ v with default := true }] }
      match build with
      | .error e => .error e
      | .ok idx =>
        match parseDevfileRegistry registryDirPath force rest with
        | .error e => .error e
        | .ok tail => .ok ({ idx with type := some .stack } :: tail)

/-- Contents of `extraDevfileEntries.yaml`: two flat lists of entries. -/
structure ExtraDevfileEntries where
  sampleEntries : List Schema := []
  stackEntries : List Schema := []

/-- Oracle for sample validation inside `parseExtraDevfileEntries`:
whether the `samples/` cache directory exists, which sample names have
a `devfile.yaml`, and which of those pass `ParseAndValidate`. -/
structure SampleOracle where
  validateSamples : Bool := false
  devfileExists : List String := []
  devfileValid : List String := []

/-- Per-entry checks of `parseExtraDevfileEntries`: unless `force`, run
the cached-sample existence and validity checks, then the
index-component validation, where the three `Missing*Error` soft
violations are only printed (`.ok`) while any other violation aborts. -/
def extraEntryGate (env : SampleOracle) (force : Bool) (devfileType : DevfileType)
    (e : Schema) : Except BuildErr Unit :=
  let indexComponent := { e with type := some devfileType }
  if force then .ok ()
  else
    if devfileType = .sample && env.validateSamples
        && !(env.devfileExists.contains e.name) then
      .error (.sampleDevfileMissing indexComponent.name)
    else if devfileType = .sample && env.validateSamples
        && !(env.devfileValid.contains e.name) then
      .error (.sampleDevfileInvalid e.name)
    else
      match validateIndexComponent indexComponent devfileType with
      | some err => if isSoftValErr err then .ok () else .error (.componentNotValid indexComponent.name)
      | none => .ok ()

/-- The entry loop of `parseExtraDevfileEntries` for one devfile type:
set the type on each entry, run the per-entry checks, and append the
entry when they pass. -/
def processExtraEntries (env : SampleOracle) (force : Bool) (devfileType : DevfileType) :
    List Schema → Except BuildErr (List Schema)
  | [] => .ok []
  | e :: rest =>
    let indexComponent := { e with type := some devfileType }
    match extraEntryGate env force devfileType e with
    | .error err => .error err
    | .ok _ =>
      match processExtraEntries env force devfileType rest with
      | .error err => .error err
      | .ok tail => .ok (indexComponent :: tail)

/-- Translation of `parseExtraDevfileEntries` (`index.go`): samples are
processed first, then stacks, concatenated in that order. -/
def parseExtraDevfileEntries (env : SampleOracle) (force : Bool)
    (entries : ExtraDevfileEntries) : Except BuildErr (List Schema) :=
  match processExtraEntries env force .sample entries.sampleEntries with
  | .error e => .error e
  | .ok sampleIndex =>
    match processExtraEntries env force .stack entries.stackEntries with
    | .error e => .error e
    | .ok stackIndex => .ok (sampleIndex ++ stackIndex)

/-- Translation of `GenerateIndexStruct` (`index.go`): directory-derived
entries first, then — when `extraDevfileEntries.yaml` exists — the
supplemental entries appended after them. -/
def GenerateIndexStruct (registryDirPath : String) (force : Bool)
    (folders : List StackFolder) (extraFileExists : Bool)
    (env : SampleOracle) (entries : ExtraDevfileEntries) : Except BuildErr (List Schema) :=
  match parseDevfileRegistry registryDirPath force folders with
  | .error e => .error e
  | .ok index =>
    if extraFileExists then
      match parseExtraDevfileEntries env force entries with
      | .error e => .error e
      | .ok extra => .ok (index ++ extra)
    else .ok index

/-! Interrupt-safe subdirectory extraction (`util.go`): `cleanDir` and
the termination-signal handler installed by `gitSubDir`. -/

/-- Whether `cleanDir` skips an entry: the `leaveBehindFiles` map holds
the name with value `true`. -/
def keptByLeaveBehind (leaveBehindFiles : List (String × Bool)) (n : String) : Bool :=
  match leaveBehindFiles.find? (fun p => p.1 = n) with
  | some p => p.2
  | none => false

/-- Effect of `fs.RemoveAll` on a directory listing: every entry with the
given name disappears. -/
def removeAllEntry (entries : List String) (n : String) : List String :=
  entries.filter (fun e => !(e = n))

/-- The removal loop of `cleanDir` (`util.go`): iterate over the listing
taken at entry (`Readdir`), skipping kept names and removing the rest
from the directory. -/
def cleanDirLoop (leaveBehindFiles : List (String × Bool)) :
    List String → List String → List String
  | current, [] => current
  | current, f :: rest =>
    if keptByLeaveBehind leaveBehindFiles f then
      cleanDirLoop leaveBehindFiles current rest
    else
      cleanDirLoop leaveBehindFiles (removeAllEntry current f) rest

/-- Translation of `cleanDir` (`util.go`): read the directory once, then
remove every entry not marked to be left behind. -/
def cleanDir (entries : List String) (leaveBehindFiles : List (String × Bool)) : List String :=
  cleanDirLoop leaveBehindFiles entries entries

/-- State touched by the extraction protocol: the top-level entries of
the final destination directory and whether the temporary staging
clone still exists. -/
structure ExtractState where
  destEntries : List String := []
  stagingExists : Bool := true
deriving Repr, DecidableEq

/-- The leave-behind set the `gitSubDir` signal handler passes to
`cleanDir`: exactly the literal `devfile.yaml`. -/
def gitSubDirLeaveBehind : List (String × Bool) := [("devfile.yaml", true)]

/-- The termination-signal handler installed by `gitSubDir` (`util.go`):
clean the destination keeping only `devfile.yaml`, then recursively
delete the staging directory. -/
def gitSubDirInterruptHandler (s : ExtractState) : ExtractState :=
  { destEntries := cleanDir s.destEntries gitSubDirLeaveBehind
    stagingExists := false }

/-! Remote stack fetch (`util.go`): reference resolution and the
branch-then-tag clone retry of `downloadRemoteStack`. The go-git
`PlainClone` call is an oracle from clone options to a result; the
post-clone `.git` removal and subdirectory extraction are modelled by
the extraction protocol above. -/

/-- Options handed to the go-git clone oracle. -/
structure CloneOptions where
  url : String := ""
  remoteName : String := ""
  referenceName : String := ""
  singleBranch : Bool := false
  depth : Nat := 0
deriving Repr, DecidableEq

/-- Outcome of one clone attempt: success, the dedicated
`NoMatchingRefSpecError`, or any other failure. -/
inductive CloneResult
  | ok
  | noMatchingRefSpec
  | otherError
deriving Repr, DecidableEq

/-- Hexadecimal digit test used by `plumbing.IsHash`. -/
def isHexChar (c : Char) : Bool :=
  c.isDigit || (Char.ofNat 97 ≤ c && c ≤ Char.ofNat 102) || (Char.ofNat 65 ≤ c && c ≤ Char.ofNat 70)

/-- go-git `plumbing.IsHash`: a 40-character hexadecimal string. -/
def plumbingIsHash (s : String) : Bool :=
  s.length = 40 && s.toList.all isHexChar

/-- go-git `plumbing.NewBranchReferenceName`. -/
def newBranchReferenceName (r : String) : String := "refs/heads/" ++ r

/-- go-git `plumbing.NewTagReferenceName`. -/
def newTagReferenceName (r : String) : String := "refs/tags/" ++ r

/-- Translation of the reference resolution and clone logic of
`downloadRemoteStack` (`util.go`): a commit-hash revision is emptied
(leaving the initial raw reference name), a non-empty revision becomes
a branch reference, a single shallow single-branch clone is attempted,
and exactly when it fails with `NoMatchingRefSpecError` and a revision
was given the clone is retried once with a tag reference. Returns the
outcome together with the trace of clone calls made. -/
def downloadRemoteStack (git : Git) (clone : CloneOptions → CloneResult) :
    Except String Unit × List CloneOptions :=
  let revision := git.revision
  let refName := git.revision
  let revision := if plumbingIsHash revision then "" else revision
  let refName := if revision ≠ "" then newBranchReferenceName revision else refName
  let cloneOptions : CloneOptions :=
    { url := git.url, remoteName := git.remoteName, referenceName := refName
      singleBranch := true, depth := 1 }
  match clone cloneOptions with
  | .ok => (.ok (), [cloneOptions])
  | .otherError => (.error "clone failed", [cloneOptions])
  | .noMatchingRefSpec =>
    if revision = "" then (.error "clone failed: no matching ref", [cloneOptions])
    else
      let retryOptions := { cloneOptions with referenceName := newTagReferenceName revision }
      match clone retryOptions with
      | .ok => (.ok (), [cloneOptions, retryOptions])
      | _ => (.error "clone failed", [cloneOptions, retryOptions])

/-- Legacy stack folder used by the C9 counterexample: no `stack.yaml`,
a valid `devfile.yaml` whose metadata declares no version. -/
def exFolderC9 : StackFolder :=
  { name := "s"
    stackYaml := none
    legacyDir :=
      { hasDevfile := true
        plainContent :=
          { meta := { name := "s", displayName := "d", language := "go", projectType := "go" }
            schemaVersion := "2.0.0" }
        files := [("devfile.yaml", false)]
        isDir := true } }

/-- Git reference with a 40-hex-character commit hash as revision, used
to exercise the unsupported-commit path of `downloadRemoteStack`. -/
def exHashGit : Git :=
  { url := "u", remoteName := "origin"
    revision := "0123456789abcdef0123456789abcdef01234567" }

/-- Legacy stack folder used by the C2 counterexample: a fully populated,
valid devfile whose only Validation-Policy violations on the finished
entry are the hard entry-level `links`/`resources` checks. -/
def exFolderC2 : StackFolder :=
  { name := "mystack"
    stackYaml := none
    legacyDir :=
      { hasDevfile := true
        plainContent :=
          { meta := { name := "mystack", displayName := "d", language := "go",
                      projectType := "go", provider := "p", supportUrl := "u",
                      architectures := ["amd64"] }
            schemaVersion := "2.0.0" }
        files := [("devfile.yaml", false)]
        isDir := true } }

/-- Supplemental sample entry with only a soft violation (missing
provider), used by the C2 witness. -/
def exSampleSoft : Schema :=
  { name := "m", git := some {}, supportUrl := "u", architectures := ["amd64"] }

/-- Number of versions flagged as default. -/
def countDefaults (vs : List Version) : Nat := vs.countP (fun v => v.default)

/-- Stack folder with an empty `stack.yaml`, violating every structural
check; used by the C5 witness. -/
def exFolderC5 : StackFolder := { name := "f", stackYaml := some {} }

/-- Devfile contents of the locally-processed versions of a stack (those
without a remote source), in processing order. -/
def processedContents (f : StackFolder) (vs : List Version) : List DevfileFile :=
  (vs.filter (fun v => v.git.isNone)).map
    (fun v => chosenDevfileContent (lookupVD f.versionDirs v.version))

/-- First-writer-wins accumulator for one entry-level scalar field. -/
def scalarFold (init : String) (l : List String) : String :=
  l.foldl (fun a m => if a = "" then m else a) init

/-- First non-empty string of a list, or the empty string. -/
def firstNonEmpty (l : List String) : String :=
  (l.find? (fun s => !(s = ""))).getD ""

/-- Deduplication keeping the first appearance of each element. -/
def dedupFirstAppearance (l : List String) : List String := unionInto [] l

/-- Stack manifest used by the C3 counterexample: the manifest itself
supplies a provider. -/
def exSYC3 : Schema :=
  { name := "s", displayName := "d", icon := "i", provider := "fromstack"
    versions := [{ version := "1.0.0", default := true }] }

/-- Stack folder used by the C3 counterexample: the version's metadata
supplies a different provider than the manifest. -/
def exFolderC3 : StackFolder :=
  { name := "s"
    stackYaml := some exSYC3
    versionDirs :=
      [("1.0.0",
        { hasDevfile := true
          plainContent :=
            { meta := { name := "s", displayName := "d", language := "go",
                        projectType := "go", provider := "frommeta", version := "1.0.0" }
              schemaVersion := "2.0.0" }
          files := [("devfile.yaml", false)]
          isDir := true })] }

/-- Stack manifest used by the C4 counterexample: the manifest itself
carries a tag. -/
def exSYC4 : Schema :=
  { name := "s", displayName := "d", icon := "i"
    tags := ["preset"]
    versions := [{ version := "1.0.0", default := true }] }

/-- Stack folder used by the C4 counterexample: the single version's
metadata carries the tag list `["a"]`. -/
def exFolderC4 : StackFolder :=
  { name := "s"
    stackYaml := some exSYC4
    versionDirs :=
      [("1.0.0",
        { hasDevfile := true
          plainContent :=
            { meta := { name := "s", displayName := "d", language := "go",
                        projectType := "go", version := "1.0.0", tags := ["a"] }
              schemaVersion := "2.0.0" }
          files := [("devfile.yaml", false)]
          isDir := true })] }

/-- Legacy stack folder for the C8 counterexample: a valid single-version
stack whose successful build leaves the entry-level `links` and
`resources` fields nil. -/
def exFolderC8 : StackFolder :=
  { name := "s"
    stackYaml := none
    legacyDir :=
      { hasDevfile := true
        plainContent :=
          { meta := { name := "s", displayName := "d", language := "go", projectType := "go" }
            schemaVersion := "2.0.0" }
        files := [("devfile.yaml", false)]
        isDir := true } }

/-- Catalog produced by the C8 witness build. -/
def exC8res : List Schema := (parseDevfileRegistry "r" false [exFolderC8]).toOption.getD []

/-- The single entry of the C8 witness build. -/
def exC8entry : Schema := exC8res.headD {}

/-! Theorems. -/

/-! Helper lemmas shared by the claim theorems. -/

theorem parseStackDevfile_ok_spec (p : String) (dir : VersionDir) (n : String) (force : Bool)
    (v : Version) (idx : Schema) (r : Version × Schema)
    (h : parseStackDevfile p dir n force v idx = .ok r) :
    r = (mergedVersionComponent v (chosenDevfileContent dir) n dir.files,
         mergedIndexComponent idx (chosenDevfileContent dir)) := by
  simp only [parseStackDevfile] at h
  split at h
  · simp at h
  · split at h
    · simp at h
    · split at h
      · simp at h
      · split at h
        · simp at h
        · exact (Except.ok.inj h).symm

theorem mergedVersionComponent_default (v : Version) (c : DevfileFile) (n : String)
    (files : List (String × Bool)) : (mergedVersionComponent v c n files).default = v.default := by
  simp [mergedVersionComponent]

theorem cleanDirLoop_spec (leave : List (String × Bool)) (order current : List String) :
    cleanDirLoop leave current order =
      current.filter (fun n => keptByLeaveBehind leave n || !(order.contains n)) := by
  induction order generalizing current with
  | nil =>
    simp [cleanDirLoop]
  | cons f rest ih =>
    by_cases hf : keptByLeaveBehind leave f
    · rw [cleanDirLoop, if_pos hf, ih]
      apply List.filter_congr
      intro n _
      by_cases hn : n = f
      · subst hn
        simp [hf]
      · simp [List.contains_cons, hn]
    · rw [cleanDirLoop, if_neg hf, ih, removeAllEntry, List.filter_filter]
      apply List.filter_congr
      intro n _
      by_cases hn : n = f
      · subst hn
        simp [hf]
      · simp [List.contains_cons, hn]

theorem cleanDir_spec (entries : List String) (leave : List (String × Bool)) :
    cleanDir entries leave = entries.filter (fun n => keptByLeaveBehind leave n) := by
  rw [cleanDir, cleanDirLoop_spec]
  apply List.filter_congr
  intro n hn
  simp [List.elem_eq_mem, hn]

/-- C1: if the termination-signal handler installed by the
subdirectory-extraction routine fires with the destination holding any
(possibly partial) set of copied entries, then afterwards the
destination retains exactly its entries literally named `devfile.yaml`
and the staging directory has been recursively deleted; in particular
`cleanDir` removes every top-level entry except those in its
leave-behind set. -/
theorem gitSubDir_interrupt_cleans_destination_and_staging (s : ExtractState) :
    (gitSubDirInterruptHandler s).destEntries =
        s.destEntries.filter (fun n => n = "devfile.yaml")
      ∧ (∀ n, n ∈ (gitSubDirInterruptHandler s).destEntries ↔
          n ∈ s.destEntries ∧ n = "devfile.yaml")
      ∧ (gitSubDirInterruptHandler s).stagingExists = false := by
  have hkept : ∀ n, keptByLeaveBehind gitSubDirLeaveBehind n = decide (n = "devfile.yaml") := by
    intro n
    rcases eq_or_ne "devfile.yaml" n with h | h
    · subst h
      simp [keptByLeaveBehind, gitSubDirLeaveBehind]
    · simp [keptByLeaveBehind, gitSubDirLeaveBehind, List.find?, h, Ne.symm h]
  refine ⟨?_, ?_, rfl⟩
  · rw [gitSubDirInterruptHandler]
    simp only [cleanDir_spec]
    apply List.filter_congr
    intro n _
    exact hkept n
  · intro n
    rw [gitSubDirInterruptHandler]
    simp only [cleanDir_spec, List.mem_filter, hkept]
    simp

/-- C10: a successful call to the version-merge step `parseStackDevfile`
preserves the `Default` flag of the version entry passed in: the
output entry's default flag equals the input entry's, regardless of
the parsed metadata's contents. -/
theorem parseStackDevfile_preserves_default (p : String) (dir : VersionDir) (n : String)
    (force : Bool) (v : Version) (idx : Schema) (r : Version × Schema)
    (h : parseStackDevfile p dir n force v idx = .ok r) :
    r.1.default = v.default := by
  rw [parseStackDevfile_ok_spec p dir n force v idx r h]
  exact mergedVersionComponent_default v (chosenDevfileContent dir) n dir.files

theorem parseStackDevfile_preserves_default_witness :
    parseStackDevfile "d" { hasDevfile := true } "s" true { default := true } {} =
      .ok (mergedVersionComponent { default := true } (chosenDevfileContent { hasDevfile := true }) "s" [],
           mergedIndexComponent {} (chosenDevfileContent { hasDevfile := true }))
    ∧ (mergedVersionComponent { default := true } (chosenDevfileContent { hasDevfile := true }) "s" [],
        mergedIndexComponent {} (chosenDevfileContent { hasDevfile := true })).1.default = true :=
  ⟨rfl, parseStackDevfile_preserves_default "d" { hasDevfile := true } "s" true
    { default := true } {} _ rfl⟩

theorem parseStackDevfile_both_error (p : String) (dir : VersionDir) (n : String)
    (force : Bool) (v : Version) (idx : Schema)
    (h1 : dir.hasDevfile = true) (h2 : dir.hasHiddenDevfile = true) :
    parseStackDevfile p dir n force v idx =
      .error (.bothDevfilesExist (joinPath p devfile) (joinPath p devfileHidden)) := by
  simp [parseStackDevfile, h1, h2]

/-- C7: locating the metadata file fails with the "both exist" error
whenever both `devfile.yaml` and `.devfile.yaml` are present in the
version directory; when the plain name is absent, any successful parse
reads the hidden `.devfile.yaml`; and on both the legacy path and the
versioned path this failure aborts the whole registry parse. -/
theorem devfile_filename_ambiguity :
    (∀ (p : String) (dir : VersionDir) (n : String) (force : Bool) (v : Version) (idx : Schema),
      dir.hasDevfile = true → dir.hasHiddenDevfile = true →
      parseStackDevfile p dir n force v idx =
        .error (.bothDevfilesExist (joinPath p devfile) (joinPath p devfileHidden)))
    ∧ (∀ (p : String) (dir : VersionDir) (n : String) (force : Bool) (v : Version) (idx : Schema)
        (r : Version × Schema),
      dir.hasDevfile = false → parseStackDevfile p dir n force v idx = .ok r →
      dir.hasHiddenDevfile = true ∧
        r = (mergedVersionComponent v dir.hiddenContent n dir.files,
             mergedIndexComponent idx dir.hiddenContent))
    ∧ (∀ (p : String) (force : Bool) (f : StackFolder) (rest : List StackFolder),
      f.isDir = true → f.stackYaml = none →
      f.legacyDir.hasDevfile = true → f.legacyDir.hasHiddenDevfile = true →
      parseDevfileRegistry p force (f :: rest) =
        .error (.bothDevfilesExist
          (joinPath (joinPath (joinPath p "stacks") f.name) devfile)
          (joinPath (joinPath (joinPath p "stacks") f.name) devfileHidden)))
    ∧ (∀ (p : String) (f : StackFolder) (rest : List StackFolder) (sy : Schema)
        (v0 : Version) (vrest : List Version),
      f.isDir = true → f.stackYaml = some sy → sy.versions = v0 :: vrest → v0.git = none →
      (lookupVD f.versionDirs v0.version).hasDevfile = true →
      (lookupVD f.versionDirs v0.version).hasHiddenDevfile = true →
      parseDevfileRegistry p true (f :: rest) =
        .error (.bothDevfilesExist
          (joinPath (joinPath (joinPath (joinPath p "stacks") f.name) v0.version) devfile)
          (joinPath (joinPath (joinPath (joinPath p "stacks") f.name) v0.version) devfileHidden))) := by
  refine ⟨parseStackDevfile_both_error, ?_, ?_, ?_⟩
  · intro p dir n force v idx r h0 h
    cases hh : dir.hasHiddenDevfile with
    | false =>
      exfalso
      rw [parseStackDevfile, h0, hh] at h
      simp only [Bool.and_self, Bool.false_and, if_false, Bool.not_false, Bool.and_true,
        ite_false, Bool.false_eq_true] at h
      split at h
      · simp at h
      · split at h
        · simp at h
        · simp at h
    | true =>
      refine ⟨rfl, ?_⟩
      have hs := parseStackDevfile_ok_spec p dir n force v idx r h
      rw [hs]
      simp [chosenDevfileContent, hh]
  · intro p force f rest hdir hsy h1 h2
    rw [parseDevfileRegistry, hdir]
    simp only [Bool.not_true, ite_false, Bool.false_eq_true, if_false]
    rw [hsy, parseStackDevfile_both_error _ _ _ _ _ _ h1 h2]
  · intro p f rest sy v0 vrest hdir hsy hv hgit hh1 hh2
    rw [parseDevfileRegistry, hdir]
    simp only [Bool.not_true, ite_false, Bool.false_eq_true, if_false]
    rw [hsy]
    simp only [Bool.not_true, Bool.false_and, Bool.and_self, ite_false, Bool.false_eq_true,
      if_false]
    rw [hv, processStackVersions, hgit]
    rw [parseStackDevfile_both_error _ _ _ _ _ _ hh1 hh2]

theorem devfile_filename_ambiguity_witness :
    parseStackDevfile "d" { hasDevfile := true, hasHiddenDevfile := true } "s" true {} {} =
      .error (.bothDevfilesExist (joinPath "d" devfile) (joinPath "d" devfileHidden)) :=
  devfile_filename_ambiguity.1 "d" { hasDevfile := true, hasHiddenDevfile := true } "s" true {} {}
    rfl rfl

/-- C9 counterexample: in the legacy single-version path with no declared
version identifier, the build succeeds and records the self link
`devfile-catalog/s:` — built from the metadata's (empty) version — not
`devfile-catalog/s:latest` as the claim states. -/
theorem self_link_legacy_latest_cex :
    (parseDevfileRegistry "r" false [exFolderC9]).toOption.map
        (fun l => l.map (fun e => (e.name, e.versions.map
          (fun v => (lookupLink v.links "self", v.version))))) =
      some [("s", [(some "devfile-catalog/s:", "")])]
    ∧ "devfile-catalog/s:" ≠ "devfile-catalog/s:latest" := by
  exact ⟨rfl, by decide⟩

/-- C9 (amended): for every successfully processed version, the self link
under the key `"self"` equals `"devfile-catalog/<stack-name>:<v>"`
where `<v>` is the version string carried by the parsed metadata file
(also stored as the entry's version); the literal `"latest"` is never
used, so in the legacy path an undeclared version yields an empty
version segment. -/
theorem version_self_link (p : String) (dir : VersionDir) (n : String) (force : Bool)
    (v : Version) (idx : Schema) (r : Version × Schema)
    (h : parseStackDevfile p dir n force v idx = .ok r) :
    lookupLink r.1.links "self" =
      some ("devfile-catalog" ++ "/" ++ n ++ ":" ++ (chosenDevfileContent dir).meta.version)
    ∧ r.1.version = (chosenDevfileContent dir).meta.version := by
  rw [parseStackDevfile_ok_spec p dir n force v idx r h]
  constructor
  · simp [mergedVersionComponent, metaToVersionProp, setLink, lookupLink, List.find?]
  · simp [mergedVersionComponent, metaToVersionProp]

theorem version_self_link_witness :
    lookupLink (mergedVersionComponent { default := true }
        (chosenDevfileContent { hasDevfile := true, plainContent := { meta := { version := "1.0.0" } } })
        "s" []).links "self" =
      some ("devfile-catalog" ++ "/" ++ "s" ++ ":" ++
        (chosenDevfileContent
          { hasDevfile := true, plainContent := { meta := { version := "1.0.0" } } }).meta.version) :=
  (version_self_link "d"
    { hasDevfile := true, plainContent := { meta := { version := "1.0.0" } } } "s" true
    { default := true } {} _ rfl).1

/-- C6: evaluation of `downloadRemoteStack` at a commit-hash revision.
The revision is recognized as a hash and emptied, yet the clone is
attempted with the raw hash as its reference name — not with the empty
reference name that the no-revision (default-branch) case uses — and
when that clone fails with the no-matching-reference error no tag retry
happens and the error is returned; a branch-named revision, by
contrast, is retried exactly once as a tag. -/
theorem downloadRemoteStack_hash_revision_eval :
    plumbingIsHash exHashGit.revision = true
    ∧ (downloadRemoteStack exHashGit (fun _ => CloneResult.noMatchingRefSpec)).2.map
        (fun o => o.referenceName) = ["0123456789abcdef0123456789abcdef01234567"]
    ∧ (downloadRemoteStack { exHashGit with revision := "" }
        (fun _ => CloneResult.noMatchingRefSpec)).2.map (fun o => o.referenceName) = [""]
    ∧ (downloadRemoteStack exHashGit (fun _ => CloneResult.noMatchingRefSpec)).1 =
        .error "clone failed: no matching ref"
    ∧ (downloadRemoteStack { exHashGit with revision := "main" }
        (fun _ => CloneResult.noMatchingRefSpec)).2.map (fun o => o.referenceName) =
        ["refs/heads/main", "refs/tags/main"]
    ∧ (downloadRemoteStack exHashGit (fun _ => CloneResult.noMatchingRefSpec)).2.map
        (fun o => (o.singleBranch, o.depth)) = [(true, 1)] := by
  refine ⟨by decide, rfl, rfl, rfl, rfl, rfl⟩

/-- C2 counterexample: a directory-derived stack entry finishes a
`force = false` build successfully even though the Validation Policy
reports a hard (non-soft) violation on it — the policy is applied only
to supplemental entries, not to directory-derived ones. -/
theorem validation_policy_not_applied_to_directory_entries_cex :
    (parseDevfileRegistry "r" false [exFolderC2]).toOption.map
        (fun l => l.map (fun e => validateIndexComponent e DevfileType.stack)) =
      some [some ValErr.linksEmpty]
    ∧ isSoftValErr ValErr.linksEmpty = false :=
  ⟨rfl, rfl⟩

/-- C2 (amended): the Validation Policy runs only on supplemental entries
(from `extraDevfileEntries.yaml`); there, without `force`, an entry
whose per-entry checks pass is appended — in particular a violation
that is one of the soft `Missing*Error`s does not abort — the checks
pass exactly when the cached-sample checks succeed and any validation
error is soft, and a failing entry aborts the loop immediately with
that error. -/
theorem extra_entries_validation_policy :
    (∀ (env : SampleOracle) (t : DevfileType) (es : List Schema),
      (∀ e ∈ es, extraEntryGate env false t e = .ok ()) →
      processExtraEntries env false t es = .ok (es.map (fun e => { e with type := some t })))
    ∧ (∀ (env : SampleOracle) (t : DevfileType) (e : Schema),
      extraEntryGate env false t e = .ok () ↔
        ((t = DevfileType.sample → env.validateSamples = true →
            e.name ∈ env.devfileExists ∧ e.name ∈ env.devfileValid)
          ∧ ∀ err, validateIndexComponent { e with type := some t } t = some err →
              isSoftValErr err = true))
    ∧ (∀ (env : SampleOracle) (t : DevfileType) (e : Schema) (rest : List Schema)
        (err : BuildErr),
      extraEntryGate env false t e = .error err →
      processExtraEntries env false t (e :: rest) = .error err) := by
  refine ⟨?_, ?_, ?_⟩
  · intro env t es hok
    induction es with
    | nil => rfl
    | cons e rest ih =>
      rw [processExtraEntries, hok e (List.mem_cons_self e rest)]
      rw [ih (fun x hx => hok x (List.mem_cons_of_mem e hx))]
      rfl
  · intro env t e
    rw [extraEntryGate]
    simp only [Bool.false_eq_true, if_false]
    by_cases hs : t = DevfileType.sample
    · subst hs
      by_cases hv : env.validateSamples = true
      · by_cases hex : e.name ∈ env.devfileExists
        · by_cases hval : e.name ∈ env.devfileValid
          · cases hV : validateIndexComponent { e with type := some DevfileType.sample }
                DevfileType.sample with
            | none => simp [hv, hex, hval, List.elem_eq_mem, hV]
            | some err =>
              cases hsoft : isSoftValErr err <;>
                simp [hv, hex, hval, List.elem_eq_mem, hV, hsoft]
          · simp [hv, hex, hval, List.elem_eq_mem]
        · simp [hv, hex, List.elem_eq_mem]
      · have hv2 : env.validateSamples = false := by simpa using hv
        cases hV : validateIndexComponent { e with type := some DevfileType.sample }
            DevfileType.sample with
        | none => simp [hv2, hV]
        | some err => cases hsoft : isSoftValErr err <;> simp [hv2, hV, hsoft]
    · have hs2 : decide (t = DevfileType.sample) = false := by simp [hs]
      cases hV : validateIndexComponent { e with type := some t } t with
      | none => simp [hs2, hV, hs]
      | some err => cases hsoft : isSoftValErr err <;> simp [hs2, hV, hsoft, hs]
  · intro env t e rest err herr
    rw [processExtraEntries, herr]

theorem extra_entries_validation_policy_witness :
    processExtraEntries {} false DevfileType.sample [exSampleSoft] =
      .ok ([exSampleSoft].map (fun e => { e with type := some DevfileType.sample })) :=
  extra_entries_validation_policy.1 {} DevfileType.sample [exSampleSoft]
    (by
      intro e he
      rw [List.mem_singleton] at he
      subst he
      rfl)

theorem stackVersionErrors_hasDefault (dirOk : String → Bool) (vs : List Version) (hd : Bool) :
    (stackVersionErrors dirOk vs hd).2 = (hd || vs.any (fun v => v.default)) := by
  induction vs generalizing hd with
  | nil => simp [stackVersionErrors]
  | cons v rest ih =>
    simp only [stackVersionErrors]
    cases hv : v.default <;> cases hhd : hd <;> simp [hv, hhd, ih]

theorem stackVersionErrors_nil_iff (dirOk : String → Bool) (vs : List Version) (hd : Bool) :
    (stackVersionErrors dirOk vs hd).1 = [] ↔
      (countDefaults vs + (if hd then 1 else 0) ≤ 1
        ∧ ∀ v ∈ vs, v.git = none → dirOk v.version = true) := by
  induction vs generalizing hd with
  | nil => cases hd <;> simp [stackVersionErrors, countDefaults]
  | cons v rest ih =>
    simp only [stackVersionErrors]
    by_cases hgit : v.git = none
    · cases hdo : dirOk v.version <;> cases hv : v.default <;> cases hhd : hd <;>
        simp [hv, hhd, hgit, hdo, ih, countDefaults, List.countP_cons]
    · cases hv : v.default <;> cases hhd : hd <;>
        simp [hv, hhd, hgit, ih, countDefaults, List.countP_cons]

theorem stackVersionErrors_hasDefault_pos (s : Schema) (dirOk : String → Bool) :
    ((stackVersionErrors dirOk s.versions false).2 = true) ↔
      0 < countDefaults s.versions := by
  rw [stackVersionErrors_hasDefault, Bool.false_or, List.any_eq_true, countDefaults,
    List.countP_pos_iff]

theorem validateStackInfo_nil_iff (s : Schema) (dirOk : String → Bool) :
    validateStackInfo s dirOk = [] ↔
      (s.name ≠ "" ∧ s.displayName ≠ "" ∧ s.icon ≠ "" ∧ s.versions ≠ []
        ∧ countDefaults s.versions = 1
        ∧ ∀ v ∈ s.versions, v.git = none → dirOk v.version = true) := by
  have hloop := stackVersionErrors_nil_iff dirOk s.versions false
  have hpos := stackVersionErrors_hasDefault_pos s dirOk
  have htail : ((if (stackVersionErrors dirOk s.versions false).2 then ([] : List String)
      else ["stack.yaml does not contain a default version"]) = []) ↔
      0 < countDefaults s.versions := by
    cases hA : (stackVersionErrors dirOk s.versions false).2 with
    | true => simpa [hA] using hpos.mp hA
    | false =>
      have hnc : ¬0 < countDefaults s.versions := fun hc => by
        rw [hpos.mpr hc] at hA; cases hA
      simp [hA, hnc]
  have hite : ∀ (c : Prop) [Decidable c] (msg : String),
      ((if c then [msg] else ([] : List String)) = []) ↔ ¬c := by
    intro c _ msg
    split
    · simp [*]
    · simp [*]
  rw [validateStackInfo]
  simp only [List.append_eq_nil, hite, hloop, htail, and_assoc, Bool.false_eq_true,
    if_false, Nat.add_zero]
  constructor
  · rintro ⟨e1, e2, e3, e4, c1, c2, c3⟩
    exact ⟨e1, e2, e3, fun h => e4 (by simp [h]), by omega, c2⟩
  · rintro ⟨h1, h2, h3, h4, h5, h6⟩
    exact ⟨h1, h2, h3, by simp [List.isEmpty_iff, h4], by omega, h6, by omega⟩

/-- C5: the structural check on a parsed stack manifest reports an error
if and only if the name, displayName or icon is empty, the versions
list is empty, the number of default versions is not exactly one, or
some locally-sourced version's named subdirectory does not exist; and
without `force` any such error aborts the whole registry parse before
any version is processed. -/
theorem validateStackInfo_error_characterization :
    (∀ (s : Schema) (dirOk : String → Bool),
      validateStackInfo s dirOk ≠ [] ↔
        (s.name = "" ∨ s.displayName = "" ∨ s.icon = "" ∨ s.versions = [] ∨
          countDefaults s.versions ≠ 1 ∨
          ∃ v ∈ s.versions, v.git = none ∧ dirOk v.version = false))
    ∧ (∀ (p : String) (f : StackFolder) (rest : List StackFolder) (sy : Schema),
      f.isDir = true → f.stackYaml = some sy →
      validateStackInfo sy (folderDirOk f) ≠ [] →
      parseDevfileRegistry p false (f :: rest) =
        .error (.stackYamlInvalid f.name (validateStackInfo sy (folderDirOk f)))) := by
  constructor
  · intro s dirOk
    rw [Ne, validateStackInfo_nil_iff]
    constructor
    · intro h
      by_contra hdis
      push_neg at hdis
      obtain ⟨h1, h2, h3, h4, h5, h6⟩ := hdis
      refine h ⟨h1, h2, h3, h4, h5, ?_⟩
      intro v hv hg
      cases hdo : dirOk v.version with
      | false =>
        exfalso
        have hcontra := h6 v hv
        simp [hg, hdo] at hcontra
      | true => rfl
    · rintro hdis ⟨h1, h2, h3, h4, h5, h6⟩
      rcases hdis with h | h | h | h | h | ⟨v, hv, hg, hdo⟩
      · exact h1 h
      · exact h2 h
      · exact h3 h
      · exact h4 h
      · exact h h5
      · rw [h6 v hv hg] at hdo; cases hdo
  · intro p f rest sy hdir hsy herr
    have hie : (validateStackInfo sy (folderDirOk f)).isEmpty = false := by
      cases hE : validateStackInfo sy (folderDirOk f) with
      | nil => exact absurd hE herr
      | cons a l => rfl
    rw [parseDevfileRegistry, hdir]
    simp only [Bool.not_true, ite_false, Bool.false_eq_true, if_false]
    rw [hsy]
    simp only [hie, Bool.not_false, Bool.and_self, if_true, ite_true]

theorem validateStackInfo_error_characterization_witness :
    validateStackInfo ({} : Schema) (folderDirOk exFolderC5) ≠ []
    ∧ parseDevfileRegistry "p" false [exFolderC5] =
        .error (.stackYamlInvalid "f" (validateStackInfo ({} : Schema) (folderDirOk exFolderC5))) := by
  have hne : validateStackInfo ({} : Schema) (folderDirOk exFolderC5) ≠ [] := by
    exact (validateStackInfo_error_characterization.1 {} (folderDirOk exFolderC5)).mpr
      (Or.inl rfl)
  exact ⟨hne, validateStackInfo_error_characterization.2 "p" exFolderC5 [] {} rfl rfl hne⟩

theorem scalarFold_eq_firstNonEmpty (l : List String) (init : String) :
    scalarFold init l = firstNonEmpty (init :: l) := by
  induction l generalizing init with
  | nil =>
    by_cases h : init = ""
    · simp [scalarFold, firstNonEmpty, List.find?, h]
    · simp [scalarFold, firstNonEmpty, List.find?, h]
  | cons m rest ih =>
    by_cases h : init = ""
    · have h1 : scalarFold init (m :: rest) = scalarFold m rest := by
        simp [scalarFold, h]
      rw [h1, ih m]
      simp [firstNonEmpty, List.find?, h]
    · have h1 : scalarFold init (m :: rest) = scalarFold init rest := by
        simp [scalarFold, h]
      rw [h1, ih init]
      simp [firstNonEmpty, List.find?, h]

theorem scalarFold_of_ne_empty (l : List String) (init : String) (h : init ≠ "") :
    scalarFold init l = init := by
  induction l with
  | nil => rfl
  | cons m rest ih => simpa [scalarFold, h] using ih

theorem mergedIndexComponent_fields (idx : Schema) (c : DevfileFile) :
    (mergedIndexComponent idx c).projectType
        = (if idx.projectType = "" then c.meta.projectType else idx.projectType)
    ∧ (mergedIndexComponent idx c).language
        = (if idx.language = "" then c.meta.language else idx.language)
    ∧ (mergedIndexComponent idx c).provider
        = (if idx.provider = "" then c.meta.provider else idx.provider)
    ∧ (mergedIndexComponent idx c).supportUrl
        = (if idx.supportUrl = "" then c.meta.supportUrl else idx.supportUrl)
    ∧ (mergedIndexComponent idx c).name
        = (if idx.name = "" then c.meta.name else idx.name)
    ∧ (mergedIndexComponent idx c).displayName
        = (if idx.displayName = "" then c.meta.displayName else idx.displayName)
    ∧ (mergedIndexComponent idx c).description
        = (if idx.description = "" then c.meta.description else idx.description)
    ∧ (mergedIndexComponent idx c).icon
        = (if idx.icon = "" then c.meta.icon else idx.icon)
    ∧ (mergedIndexComponent idx c).tags = unionInto idx.tags c.meta.tags
    ∧ (mergedIndexComponent idx c).architectures = unionInto idx.architectures c.meta.architectures
    ∧ (mergedIndexComponent idx c).versions = idx.versions
    ∧ (mergedIndexComponent idx c).links = idx.links
    ∧ (mergedIndexComponent idx c).resources = idx.resources
    ∧ (mergedIndexComponent idx c).type = idx.type := by
  refine ⟨?_, ?_, ?_, ?_, ?_, ?_, ?_, ?_, ?_, ?_, ?_, ?_, ?_, ?_⟩ <;>
    simp [mergedIndexComponent, backfill]

theorem processStackVersions_index_spec (f : StackFolder) (p : String) (force : Bool)
    (vs : List Version) (idx idx2 : Schema) (vs2 : List Version)
    (h : processStackVersions f p force idx vs = .ok (idx2, vs2)) :
    idx2.projectType = scalarFold idx.projectType
        ((processedContents f vs).map (fun c => c.meta.projectType))
    ∧ idx2.language = scalarFold idx.language
        ((processedContents f vs).map (fun c => c.meta.language))
    ∧ idx2.provider = scalarFold idx.provider
        ((processedContents f vs).map (fun c => c.meta.provider))
    ∧ idx2.supportUrl = scalarFold idx.supportUrl
        ((processedContents f vs).map (fun c => c.meta.supportUrl))
    ∧ idx2.name = scalarFold idx.name
        ((processedContents f vs).map (fun c => c.meta.name))
    ∧ idx2.displayName = scalarFold idx.displayName
        ((processedContents f vs).map (fun c => c.meta.displayName))
    ∧ idx2.description = scalarFold idx.description
        ((processedContents f vs).map (fun c => c.meta.description))
    ∧ idx2.icon = scalarFold idx.icon
        ((processedContents f vs).map (fun c => c.meta.icon))
    ∧ idx2.tags = (processedContents f vs).foldl (fun acc c => unionInto acc c.meta.tags) idx.tags
    ∧ idx2.architectures = (processedContents f vs).foldl
        (fun acc c => unionInto acc c.meta.architectures) idx.architectures := by
  induction vs generalizing idx idx2 vs2 with
  | nil =>
    simp only [processStackVersions, Except.ok.injEq, Prod.mk.injEq] at h
    obtain ⟨hi, _⟩ := h
    subst hi
    simp [processedContents, scalarFold]
  | cons v rest ih =>
    rw [processStackVersions] at h
    cases hg : v.git with
    | some g =>
      rw [hg] at h
      cases hrec : processStackVersions f p force idx rest with
      | error e => rw [hrec] at h; cases h
      | ok pr =>
        obtain ⟨idxr, vsr⟩ := pr
        rw [hrec] at h
        simp only [Except.ok.injEq, Prod.mk.injEq] at h
        obtain ⟨hi, _⟩ := h
        subst hi
        have hrest := ih idx idxr vsr hrec
        simpa [processedContents, hg] using hrest
    | none =>
      rw [hg] at h
      cases hp : parseStackDevfile (joinPath p v.version)
          (lookupVD f.versionDirs v.version) f.name force v idx with
      | error e => rw [hp] at h; cases h
      | ok pr1 =>
        obtain ⟨v1, idx1⟩ := pr1
        rw [hp] at h
        dsimp only at h
        cases hrec : processStackVersions f p force idx1 rest with
        | error e => rw [hrec] at h; cases h
        | ok pr =>
          obtain ⟨idxr, vsr⟩ := pr
          rw [hrec] at h
          simp only [Except.ok.injEq, Prod.mk.injEq] at h
          obtain ⟨hi, _⟩ := h
          subst hi
          have hidx1 : idx1 = mergedIndexComponent idx
              (chosenDevfileContent (lookupVD f.versionDirs v.version)) :=
            congrArg Prod.snd (parseStackDevfile_ok_spec _ _ _ _ _ _ _ hp)
          have hrest := ih idx1 idxr vsr hrec
          rw [hidx1] at hrest
          have hcons : processedContents f (v :: rest) =
              chosenDevfileContent (lookupVD f.versionDirs v.version) :: processedContents f rest := by
            simp [processedContents, hg]
          rw [hcons]
          simp only [List.map_cons, List.foldl_cons]
          simpa [mergedIndexComponent, backfill, scalarFold] using hrest

/-- C3 counterexample: the first processed version supplies the non-empty
provider `"frommeta"`, yet the built entry's provider is `"fromstack"`
— a value already present on the entry (from `stack.yaml`) wins over
every version's metadata. -/
theorem scalar_backfill_first_version_cex :
    (parseDevfileRegistry "r" false [exFolderC3]).toOption.map
        (fun l => l.map (fun e => e.provider)) = some ["fromstack"]
    ∧ (processedContents exFolderC3 exSYC3.versions).map (fun c => c.meta.provider) =
        ["frommeta"]
    ∧ "fromstack" ≠ "frommeta" :=
  ⟨rfl, rfl, by decide⟩

/-- C3 (amended): after processing a stack's versions, each entry-level
scalar field equals the first non-empty value in the sequence headed by
the manifest-supplied value and followed by the processed versions'
metadata values in order; in particular, when the manifest leaves the
field empty, the first processed version with a non-empty value wins
and later versions never override it. -/
theorem scalar_backfill_first_nonempty (f : StackFolder) (p : String) (force : Bool)
    (vs : List Version) (idx idx2 : Schema) (vs2 : List Version)
    (h : processStackVersions f p force idx vs = .ok (idx2, vs2)) :
    idx2.projectType = firstNonEmpty (idx.projectType ::
        (processedContents f vs).map (fun c => c.meta.projectType))
    ∧ idx2.language = firstNonEmpty (idx.language ::
        (processedContents f vs).map (fun c => c.meta.language))
    ∧ idx2.provider = firstNonEmpty (idx.provider ::
        (processedContents f vs).map (fun c => c.meta.provider))
    ∧ idx2.supportUrl = firstNonEmpty (idx.supportUrl ::
        (processedContents f vs).map (fun c => c.meta.supportUrl))
    ∧ idx2.name = firstNonEmpty (idx.name ::
        (processedContents f vs).map (fun c => c.meta.name))
    ∧ idx2.displayName = firstNonEmpty (idx.displayName ::
        (processedContents f vs).map (fun c => c.meta.displayName))
    ∧ idx2.description = firstNonEmpty (idx.description ::
        (processedContents f vs).map (fun c => c.meta.description))
    ∧ idx2.icon = firstNonEmpty (idx.icon ::
        (processedContents f vs).map (fun c => c.meta.icon)) := by
  obtain ⟨h1, h2, h3, h4, h5, h6, h7, h8, _, _⟩ :=
    processStackVersions_index_spec f p force vs idx idx2 vs2 h
  rw [scalarFold_eq_firstNonEmpty] at h1 h2 h3 h4 h5 h6 h7 h8
  exact ⟨h1, h2, h3, h4, h5, h6, h7, h8⟩

theorem scalar_backfill_first_nonempty_witness :
    ((processStackVersions exFolderC3 "p" false exSYC3 exSYC3.versions).toOption.getD
        ({}, [])).1.provider =
      firstNonEmpty (exSYC3.provider ::
        (processedContents exFolderC3 exSYC3.versions).map (fun c => c.meta.provider)) :=
  (scalar_backfill_first_nonempty exFolderC3 "p" false exSYC3.versions exSYC3 _ _ rfl).2.2.1

theorem inArray_iff (l : List String) (v : String) : inArray l v = true ↔ v ∈ l := by
  induction l with
  | nil => simp [inArray]
  | cons a rest ih =>
    by_cases ha : a = v
    · simp [inArray, ha]
    · simp [inArray, ha, ih, Ne.symm ha]

theorem mem_unionInto (new : List String) (base : List String) (x : String) :
    x ∈ unionInto base new ↔ x ∈ base ∨ x ∈ new := by
  induction new generalizing base with
  | nil => simp [unionInto]
  | cons t ts ih =>
    have hstep : unionInto base (t :: ts) =
        unionInto (if inArray base t then base else base ++ [t]) ts := rfl
    rw [hstep, ih]
    by_cases hb : inArray base t = true
    · have hmem : t ∈ base := (inArray_iff base t).mp hb
      simp only [hb, if_true, List.mem_cons]
      constructor
      · rintro (hx | hx)
        · exact Or.inl hx
        · exact Or.inr (Or.inr hx)
      · rintro (hx | hx | hx)
        · exact Or.inl hx
        · exact Or.inl (hx ▸ hmem)
        · exact Or.inr hx
    · have hb2 : inArray base t = false := by simpa using hb
      simp [hb2, List.mem_append, List.mem_cons, or_assoc]

theorem nodup_unionInto (new : List String) (base : List String) (hb : base.Nodup) :
    (unionInto base new).Nodup := by
  induction new generalizing base with
  | nil => exact hb
  | cons t ts ih =>
    have hstep : unionInto base (t :: ts) =
        unionInto (if inArray base t then base else base ++ [t]) ts := rfl
    rw [hstep]
    by_cases hA : inArray base t = true
    · rw [if_pos hA]
      exact ih base hb
    · have hA2 : inArray base t = false := by simpa using hA
      have hnot : t ∉ base := fun hmem => by
        rw [(inArray_iff base t).mpr hmem] at hA2
        cases hA2
      rw [hA2]
      simp only [Bool.false_eq_true, if_false]
      exact ih (base ++ [t]) (by simp [List.nodup_append, hb, hnot])

theorem unionInto_append (base l1 l2 : List String) :
    unionInto base (l1 ++ l2) = unionInto (unionInto base l1) l2 :=
  List.foldl_append _ _ _ _

theorem foldl_unionInto_flatten (ls : List (List String)) (base : List String) :
    ls.foldl (fun acc l => unionInto acc l) base = unionInto base ls.flatten := by
  induction ls generalizing base with
  | nil => simp [unionInto]
  | cons l ls ih =>
    rw [List.foldl_cons, ih, List.flatten_cons, unionInto_append]

/-- C4 counterexample: the built entry's tag list is `["preset", "a"]`
while the union of the per-version tag lists is `{"a"}` — a tag preset
by `stack.yaml` survives, so the entry-level list is not the union of
the per-version lists. -/
theorem tags_union_cex :
    (parseDevfileRegistry "r" false [exFolderC4]).toOption.map
        (fun l => l.map (fun e => (e.tags, e.versions.map (fun v => v.tags)))) =
      some [(["preset", "a"], [["a"]])]
    ∧ ("preset" ∈ ["a"]) = False :=
  ⟨rfl, by simp⟩

/-- C4 (amended): when the manifest supplies no entry-level tags or
architectures, the built entry's tag and architecture lists are
duplicate-free, keep first-appearance order over the concatenation of
the processed (locally-sourced) versions' metadata lists, and equal —
as sets, hence independently of processing order — the union of those
per-version lists. -/
theorem tags_architectures_union (f : StackFolder) (p : String) (force : Bool)
    (vs : List Version) (idx idx2 : Schema) (vs2 : List Version)
    (h : processStackVersions f p force idx vs = .ok (idx2, vs2))
    (htags : idx.tags = []) (harch : idx.architectures = []) :
    idx2.tags = dedupFirstAppearance
        ((processedContents f vs).map (fun c => c.meta.tags)).flatten
    ∧ idx2.tags.Nodup
    ∧ (∀ t, t ∈ idx2.tags ↔ ∃ c ∈ processedContents f vs, t ∈ c.meta.tags)
    ∧ idx2.architectures = dedupFirstAppearance
        ((processedContents f vs).map (fun c => c.meta.architectures)).flatten
    ∧ idx2.architectures.Nodup
    ∧ (∀ a, a ∈ idx2.architectures ↔ ∃ c ∈ processedContents f vs, a ∈ c.meta.architectures) := by
  obtain ⟨_, _, _, _, _, _, _, _, ht, ha⟩ :=
    processStackVersions_index_spec f p force vs idx idx2 vs2 h
  have hmapt : (processedContents f vs).foldl (fun acc c => unionInto acc c.meta.tags) idx.tags =
      ((processedContents f vs).map (fun c => c.meta.tags)).foldl
        (fun acc l => unionInto acc l) idx.tags := by
    rw [List.foldl_map]
  have hmapa : (processedContents f vs).foldl
      (fun acc c => unionInto acc c.meta.architectures) idx.architectures =
      ((processedContents f vs).map (fun c => c.meta.architectures)).foldl
        (fun acc l => unionInto acc l) idx.architectures := by
    rw [List.foldl_map]
  rw [hmapt, htags, foldl_unionInto_flatten] at ht
  rw [hmapa, harch, foldl_unionInto_flatten] at ha
  refine ⟨ht, ?_, ?_, ha, ?_, ?_⟩
  · rw [ht]
    exact nodup_unionInto _ _ List.nodup_nil
  · intro t
    rw [ht, mem_unionInto]
    simp [List.mem_flatten]
  · rw [ha]
    exact nodup_unionInto _ _ List.nodup_nil
  · intro a
    rw [ha, mem_unionInto]
    simp [List.mem_flatten]

theorem tags_architectures_union_witness :
    ((processStackVersions exFolderC4 "p" false { exSYC4 with tags := [] }
        exSYC4.versions).toOption.getD ({}, [])).1.tags =
      dedupFirstAppearance
        ((processedContents exFolderC4 exSYC4.versions).map (fun c => c.meta.tags)).flatten :=
  (tags_architectures_union exFolderC4 "p" false exSYC4.versions
    { exSYC4 with tags := [] } _ _ rfl rfl rfl).1

theorem processStackVersions_versions_spec (f : StackFolder) (p : String) (force : Bool)
    (vs : List Version) (idx idx2 : Schema) (vs2 : List Version)
    (h : processStackVersions f p force idx vs = .ok (idx2, vs2)) :
    vs2.map (fun v => v.default) = vs.map (fun v => v.default) := by
  induction vs generalizing idx idx2 vs2 with
  | nil =>
    simp only [processStackVersions, Except.ok.injEq, Prod.mk.injEq] at h
    obtain ⟨_, hv⟩ := h
    subst hv
    rfl
  | cons v rest ih =>
    rw [processStackVersions] at h
    cases hg : v.git with
    | some g =>
      rw [hg] at h
      cases hrec : processStackVersions f p force idx rest with
      | error e => rw [hrec] at h; cases h
      | ok pr =>
        obtain ⟨idxr, vsr⟩ := pr
        rw [hrec] at h
        simp only [Except.ok.injEq, Prod.mk.injEq] at h
        obtain ⟨_, hv⟩ := h
        subst hv
        simp [ih idx idxr vsr hrec]
    | none =>
      rw [hg] at h
      cases hp : parseStackDevfile (joinPath p v.version)
          (lookupVD f.versionDirs v.version) f.name force v idx with
      | error e => rw [hp] at h; cases h
      | ok pr1 =>
        obtain ⟨v1, idx1⟩ := pr1
        rw [hp] at h
        dsimp only at h
        cases hrec : processStackVersions f p force idx1 rest with
        | error e => rw [hrec] at h; cases h
        | ok pr =>
          obtain ⟨idxr, vsr⟩ := pr
          rw [hrec] at h
          simp only [Except.ok.injEq, Prod.mk.injEq] at h
          obtain ⟨_, hv⟩ := h
          subst hv
          have hv1 : v1 = mergedVersionComponent v
              (chosenDevfileContent (lookupVD f.versionDirs v.version)) f.name
              (lookupVD f.versionDirs v.version).files :=
            congrArg Prod.fst (parseStackDevfile_ok_spec _ _ _ _ _ _ _ hp)
          have hd : v1.default = v.default := by
            rw [hv1, mergedVersionComponent_default]
          simp [hd, ih idx1 idxr vsr hrec]

theorem countDefaults_eq_of_map_eq (l1 l2 : List Version)
    (h : l1.map (fun v => v.default) = l2.map (fun v => v.default)) :
    countDefaults l1 = countDefaults l2 := by
  have h1 : countDefaults l1 = List.countP (fun b => b) (l1.map (fun v => v.default)) := by
    rw [countDefaults, List.countP_map]
    rfl
  have h2 : countDefaults l2 = List.countP (fun b => b) (l2.map (fun v => v.default)) := by
    rw [countDefaults, List.countP_map]
    rfl
  rw [h1, h2, h]

theorem checkForRequiredMetadata_nil (m : Meta) (h : checkForRequiredMetadata m = []) :
    m.name ≠ "" ∧ m.displayName ≠ "" ∧ m.language ≠ "" ∧ m.projectType ≠ "" := by
  by_cases h1 : m.name = "" <;> by_cases h2 : m.displayName = "" <;>
    by_cases h3 : m.language = "" <;> by_cases h4 : m.projectType = "" <;>
    simp [checkForRequiredMetadata, h1, h2, h3, h4] at h ⊢

theorem parseStackDevfile_ok_required_metadata (p : String) (dir : VersionDir) (n : String)
    (v : Version) (idx : Schema) (r : Version × Schema)
    (h : parseStackDevfile p dir n false v idx = .ok r) :
    checkForRequiredMetadata (chosenDevfileContent dir).meta = [] := by
  by_cases hmeta : checkForRequiredMetadata (chosenDevfileContent dir).meta = []
  · exact hmeta
  · exfalso
    have hie : (checkForRequiredMetadata (chosenDevfileContent dir).meta).isEmpty = false := by
      cases hE : checkForRequiredMetadata (chosenDevfileContent dir).meta with
      | nil => exact absurd hE hmeta
      | cons a l => rfl
    simp only [parseStackDevfile, hie] at h
    split at h
    · simp at h
    · split at h
      · simp at h
      · simp at h

/-- C8 counterexample: a successful `force = false` build produces a
Stack entry whose entry-level `links` and `resources` are still nil
(the self link and the resource list live on the version instead). -/
theorem entry_links_resources_cex :
    (parseDevfileRegistry "r" false [exFolderC8]).toOption.map
        (fun l => l.map (fun e =>
          (e.links, e.resources, e.versions.map (fun v => (v.links, v.resources))))) =
      some [(none, none,
        [(some [("self", "devfile-catalog/s:")], ["devfile.yaml"])])] :=
  rfl

/-- C8 (amended): every entry of a successful `force = false` build has a
non-empty name, a non-empty versions sequence with exactly one
`default = true` element, and the version-merge loop preserves the
declared number of versions (N in, N out); the entry-level `links` and
`resources`, however, stay nil — the self link and resources are
recorded on the versions. -/
theorem successful_build_entry_invariants :
    (∀ (p : String) (folders : List StackFolder) (idx : List Schema),
      parseDevfileRegistry p false folders = .ok idx →
      ∀ e ∈ idx, e.name ≠ "" ∧ e.versions ≠ [] ∧ countDefaults e.versions = 1)
    ∧ (∀ (f : StackFolder) (p : String) (force : Bool) (vs : List Version)
        (idx idx2 : Schema) (vs2 : List Version),
      processStackVersions f p force idx vs = .ok (idx2, vs2) → vs2.length = vs.length) := by
  constructor
  · intro p folders
    induction folders with
    | nil =>
      intro idx h
      simp only [parseDevfileRegistry, Except.ok.injEq] at h
      subst h
      intro e he
      cases he
    | cons f rest ih =>
      intro idx h
      rw [parseDevfileRegistry] at h
      cases hdir : f.isDir with
      | false =>
        rw [hdir] at h
        simp only [Bool.not_false, if_true, ite_true] at h
        exact ih idx h
      | true =>
        rw [hdir] at h
        simp only [Bool.not_true, Bool.false_eq_true, if_false, ite_false] at h
        cases hsy : f.stackYaml with
        | some sy =>
          rw [hsy] at h
          dsimp only at h
          by_cases hval : validateStackInfo sy (folderDirOk f) = []
          · have hie : (validateStackInfo sy (folderDirOk f)).isEmpty = true := by
              simp [hval]
            rw [hie] at h
            simp only [Bool.not_true, Bool.and_false, Bool.false_eq_true, if_false,
              ite_false] at h
            obtain ⟨hv1, _, _, hv4, hv5, _⟩ := (validateStackInfo_nil_iff sy (folderDirOk f)).mp hval
            cases hpv : processStackVersions f (joinPath (joinPath p "stacks") f.name)
                false sy sy.versions with
            | error e => rw [hpv] at h; cases h
            | ok pr =>
              obtain ⟨idxA, vsA⟩ := pr
              rw [hpv] at h
              dsimp only at h
              cases hrest : parseDevfileRegistry p false rest with
              | error e => rw [hrest] at h; cases h
              | ok tail =>
                rw [hrest] at h
                simp only [Except.ok.injEq] at h
                subst h
                intro e he
                rcases List.mem_cons.mp he with he | he
                · subst he
                  have hspecA := processStackVersions_index_spec f
                    (joinPath (joinPath p "stacks") f.name) false sy.versions sy idxA vsA hpv
                  have hmap := processStackVersions_versions_spec f
                    (joinPath (joinPath p "stacks") f.name) false sy.versions sy idxA vsA hpv
                  have hnA : idxA.name = sy.name := by
                    rw [hspecA.2.2.2.2.1, scalarFold_of_ne_empty _ _ hv1]
                  refine ⟨?_, ?_, ?_⟩
                  · show idxA.name ≠ ""
                    rw [hnA]
                    exact hv1
                  · show vsA ≠ []
                    intro hnil
                    have hlen : vsA.map (fun v => v.default) = [] := by simp [hnil]
                    rw [hlen] at hmap
                    exact hv4 (by simpa using hmap.symm)
                  · show countDefaults vsA = 1
                    rw [countDefaults_eq_of_map_eq vsA sy.versions hmap]
                    exact hv5
                · exact ih tail hrest e he
          · have hie : (validateStackInfo sy (folderDirOk f)).isEmpty = false := by
              cases hE : validateStackInfo sy (folderDirOk f) with
              | nil => exact absurd hE hval
              | cons a l => rfl
            rw [hie] at h
            simp only [Bool.not_false, Bool.and_self, if_true, ite_true] at h
            cases h
        | none =>
          rw [hsy] at h
          dsimp only at h
          cases hp : parseStackDevfile (joinPath (joinPath p "stacks") f.name)
              f.legacyDir f.name false {} {} with
          | error e => rw [hp] at h; cases h
          | ok pr =>
            obtain ⟨v0, idx0⟩ := pr
            rw [hp] at h
            dsimp only at h
            cases hrest : parseDevfileRegistry p false rest with
            | error e => rw [hrest] at h; cases h
            | ok tail =>
              rw [hrest] at h
              simp only [Except.ok.injEq] at h
              subst h
              intro e he
              rcases List.mem_cons.mp he with he | he
              · subst he
                have hidx0 : idx0 = mergedIndexComponent {} (chosenDevfileContent f.legacyDir) :=
                  congrArg Prod.snd (parseStackDevfile_ok_spec _ _ _ _ _ _ _ hp)
                obtain ⟨hname, _, _, _⟩ := checkForRequiredMetadata_nil _
                  (parseStackDevfile_ok_required_metadata _ _ _ _ _ _ hp)
                refine ⟨?_, ?_, ?_⟩
                · simpa [hidx0, mergedIndexComponent, backfill] using hname
                · simp [hidx0, mergedIndexComponent, backfill]
                · simp [hidx0, mergedIndexComponent, backfill, countDefaults, List.countP_cons]
              · exact ih tail hrest e he
  · intro f p force vs idx idx2 vs2 h
    have hmap := processStackVersions_versions_spec f p force vs idx idx2 vs2 h
    have := congrArg List.length hmap
    simpa using this

theorem successful_build_entry_invariants_witness :
    exC8entry.name ≠ "" ∧ exC8entry.versions ≠ [] ∧ countDefaults exC8entry.versions = 1 :=
  successful_build_entry_invariants.1 "r" [exFolderC8] exC8res rfl exC8entry
    (by
      rw [show exC8res = [exC8entry] from rfl]
      exact List.mem_singleton.mpr rfl)

end RegistryLibrary
